import Mathlib

/-!
Shallow embedding of the POD form-storage core: the Record Store
(`storedFiles` plus the `form_<timestamp>` identifier assignment of
`writeFormFile`) and the Inverted Index (`keyToFiles`, `valueToFiles`,
maintained by `indexFile` and queried by `filesMatchingQuery`).

Conventions of the embedding:

* Go maps `map[string][]string` with nil-default lookup are embedded as
  functions `String → List String` that return `[]` for absent keys.
* Go sets `map[string]struct{}` are embedded as `List String` used only
  through membership, mirroring the source loops entry by entry.
* The clock reading `time.Now().UnixNano()` is an explicit `Nat`
  parameter (`UnixNano` is non-negative for any realistic clock); file
  I/O performed by `writeFormFile` is outside the modelled core, only
  its returned base name (the identifier) is embedded.
* Go iterates maps in unspecified order; submitted field sets and
  queries are embedded as association lists iterated in list order, and
  order-independence of the query result is proved explicitly.
-/

namespace POD

/-- Whitespace test of Go `strings.TrimSpace` (`unicode.IsSpace`),
restricted to the Latin-1 range that the modelled strings draw from:
'\t', '\n', vertical tab, form feed, '\r', ' ', U+0085 and U+00A0.
Space characters above U+00FF are outside the modelled alphabet. -/
def goIsSpace (c : Char) : Bool :=
  c = '\t' || c = '\n' || c = '\x0B' || c = '\x0C' || c = '\r' ||
  c = ' ' || c = '\x85' || c = '\xA0'

/-- Go `strings.TrimSpace`: drop leading and trailing whitespace. -/
def trimSpace (s : String) : String :=
  String.mk (((s.data.dropWhile goIsSpace).reverse.dropWhile goIsSpace).reverse)

/-- Little-endian decimal digits with explicit fuel; `toDigitsAux n n`
computes the digits of `n` (empty for `n = 0`). -/
def toDigitsAux : Nat → Nat → List Nat
  | 0, _ => []
  | fuel + 1, n => if n = 0 then [] else n % 10 :: toDigitsAux fuel (n / 10)

/-- Little-endian decimal digit list of `n`. -/
def toDigitsRev (n : Nat) : List Nat := toDigitsAux n n

/-- Character of a single decimal digit. -/
def digitChar (d : Nat) : Char := Char.ofNat (48 + d)

/-- Decimal rendering of a natural number, as produced by Go
`fmt.Sprintf` with the `%d` verb on a non-negative integer. -/
def natStr (n : Nat) : String :=
  if n = 0 then "0" else String.mk (((toDigitsRev n).map digitChar).reverse)

/-- Identifier assignment of `writeFormFile`: the returned base name is
`fmt.Sprintf("form_%d", ts)` for the observed clock reading
`ts := time.Now().UnixNano()`.  The HTML file written under that name
is I/O outside the core. -/
def writeFormFile (ts : Nat) : String := "form_" ++ natStr ts

/-- Combined state of the Record Store and the Inverted Index: the
global variables `keyToFiles`, `valueToFiles` and `storedFiles`. -/
structure PodState where
  keyToFiles : String → List String
  valueToFiles : String → List String
  storedFiles : List String

/-- Initial state: Go's empty maps and nil slice. -/
def initState : PodState := ⟨fun _ => [], fun _ => [], []⟩

/-- Append `fn` to the bucket of `k`: Go `m[k] = append(m[k], fn)`. -/
def updateMap (m : String → List String) (k fn : String) : String → List String :=
  fun k' => if k' = k then m k ++ [fn] else m k'

/-- Inner loop of `indexFile` over one value: trim, skip if empty,
otherwise add `baseName` to `valueToFiles[v]`. -/
def indexValue (st : PodState) (baseName v : String) : PodState :=
  if trimSpace v = "" then st
  else { st with valueToFiles := updateMap st.valueToFiles (trimSpace v) baseName }

/-- Value loop of `indexFile` over the value list of one field. -/
def indexValues (st : PodState) (baseName : String) (vals : List String) : PodState :=
  vals.foldl (fun s v => indexValue s baseName v) st

/-- Body of `indexFile`'s field loop: trim the field name, skip the
whole field if empty, otherwise add `baseName` to `keyToFiles[k]` and
process the field's values. -/
def indexField (st : PodState) (baseName : String) (kv : String × List String) : PodState :=
  if trimSpace kv.1 = "" then st
  else
    indexValues { st with keyToFiles := updateMap st.keyToFiles (trimSpace kv.1) baseName }
      baseName kv.2

/-- Field loop of `indexFile`. -/
def indexFields (st : PodState) (baseName : String) (values : List (String × List String)) : PodState :=
  values.foldl (fun s kv => indexField s baseName kv) st

/-- Go `indexFile`: record `baseName` in `storedFiles` and add it to the
key and value buckets of every non-blank field name and value. -/
def indexFile (st : PodState) (baseName : String) (values : List (String × List String)) : PodState :=
  indexFields { st with storedFiles := st.storedFiles ++ [baseName] } baseName values

/-- The `append` operation of the Record Store as invoked by the POST
handler: assign the identifier from the observed clock reading
(`writeFormFile`) and index the submission (`indexFile`).  Returns the
new state and the assigned identifier. -/
def appendForm (st : PodState) (ts : Nat) (fields : List (String × List String)) : PodState × String :=
  (indexFile st (writeFormFile ts) fields, writeFormFile ts)

/-- The `list()` operation: the insertion-ordered identifier list
`storedFiles`. -/
def listIds (st : PodState) : List String := st.storedFiles

/-- Candidate set of one queried field in `filesMatchingQuery`: the
files having the key at all (`keyToFiles[qk]`), narrowed — when values
are requested — to those also present in `valueToFiles[val]` for some
requested `val`.  The Go loop iterates the requested values and the
value buckets, keeping entries already in `tmp`. -/
def candSet (st : PodState) (qk : String) (qvs : List String) : List String :=
  let tmp := st.keyToFiles qk
  if qvs = [] then tmp
  else qvs.foldl (fun acc val => acc ++ (st.valueToFiles val).filter (fun fn => decide (fn ∈ tmp))) []

/-- Intersection of two candidate sets, mirroring the Go loop that
keeps the members of `candidateSet` that are also in `tmp`. -/
def interSet (c tmp : List String) : List String :=
  c.filter (fun fn => decide (fn ∈ tmp))

/-- Remaining iterations of the query loop of `filesMatchingQuery`,
starting from the candidate set of the first field; mirrors the
short-circuit `break` when the running intersection becomes empty. -/
def candFold (st : PodState) (cand : List String) : List (String × List String) → List String
  | [] => cand
  | q :: rest =>
    if interSet cand (candSet st q.1 q.2) = [] then []
    else candFold st (interSet cand (candSet st q.1 q.2)) rest

/-- Go `filesMatchingQuery`: an empty query returns a copy of
`storedFiles`; otherwise intersect the per-field candidate sets and
project the result through `storedFiles`, preserving insertion order. -/
def filesMatchingQuery (st : PodState) : List (String × List String) → List String
  | [] => st.storedFiles
  | q :: rest =>
    st.storedFiles.filter (fun fn => decide (fn ∈ candFold st (candSet st q.1 q.2) rest))

/-- A whole history of the index: `indexFile` applied for each recorded
`(identifier, fields)` pair in order. -/
def applyTrace (st : PodState) (tr : List (String × List (String × List String))) : PodState :=
  tr.foldl (fun s e => indexFile s e.1 e.2) st

/-! Lemmas about the bucket update. -/

theorem updateMap_self (m : String → List String) (k fn : String) :
    updateMap m k fn k = m k ++ [fn] := by
  simp [updateMap]

theorem mem_updateMap_of_mem {m : String → List String} {k' x : String} (k fn : String)
    (h : x ∈ m k') : x ∈ updateMap m k fn k' := by
  unfold updateMap
  split
  · next heq => subst heq; exact List.mem_append_left _ h
  · exact h

theorem mem_updateMap_elim {m : String → List String} {k fn k' x : String}
    (h : x ∈ updateMap m k fn k') : x ∈ m k' ∨ x = fn := by
  unfold updateMap at h
  split at h
  · next heq =>
    subst heq
    rcases List.mem_append.mp h with h' | h'
    · exact Or.inl h'
    · exact Or.inr (List.mem_singleton.mp h')
  · exact Or.inl h

/-! Lemmas about `indexValue`. -/

theorem indexValue_keyToFiles (st : PodState) (b v : String) :
    (indexValue st b v).keyToFiles = st.keyToFiles := by
  unfold indexValue
  split <;> rfl

theorem indexValue_storedFiles (st : PodState) (b v : String) :
    (indexValue st b v).storedFiles = st.storedFiles := by
  unfold indexValue
  split <;> rfl

theorem indexValue_val_mono {st : PodState} {w x : String} (b v : String)
    (h : x ∈ st.valueToFiles w) : x ∈ (indexValue st b v).valueToFiles w := by
  unfold indexValue
  split
  · exact h
  · exact mem_updateMap_of_mem _ _ h

theorem indexValue_val_self (st : PodState) (b : String) {v : String}
    (h : trimSpace v ≠ "") : b ∈ (indexValue st b v).valueToFiles (trimSpace v) := by
  unfold indexValue
  split
  · next heq => exact absurd heq h
  · simp [updateMap_self]

theorem indexValue_val_elim {st : PodState} {b v w x : String}
    (h : x ∈ (indexValue st b v).valueToFiles w) : x ∈ st.valueToFiles w ∨ x = b := by
  unfold indexValue at h
  split at h
  · exact Or.inl h
  · exact mem_updateMap_elim h

/-! Lemmas about `indexValues`. -/

theorem indexValues_nil (st : PodState) (b : String) : indexValues st b [] = st := rfl

theorem indexValues_cons (st : PodState) (b v : String) (vs : List String) :
    indexValues st b (v :: vs) = indexValues (indexValue st b v) b vs := rfl

theorem indexValues_keyToFiles (st : PodState) (b : String) (vs : List String) :
    (indexValues st b vs).keyToFiles = st.keyToFiles := by
  induction vs generalizing st with
  | nil => rfl
  | cons v vs ih => rw [indexValues_cons, ih, indexValue_keyToFiles]

theorem indexValues_storedFiles (st : PodState) (b : String) (vs : List String) :
    (indexValues st b vs).storedFiles = st.storedFiles := by
  induction vs generalizing st with
  | nil => rfl
  | cons v vs ih => rw [indexValues_cons, ih, indexValue_storedFiles]

theorem indexValues_val_mono {st : PodState} {w x : String} (b : String) (vs : List String)
    (h : x ∈ st.valueToFiles w) : x ∈ (indexValues st b vs).valueToFiles w := by
  induction vs generalizing st with
  | nil => exact h
  | cons v vs ih => exact ih (indexValue_val_mono b v h)

theorem indexValues_val_est (st : PodState) (b : String) {v : String} {vs : List String}
    (hv : v ∈ vs) (hne : trimSpace v ≠ "") :
    b ∈ (indexValues st b vs).valueToFiles (trimSpace v) := by
  induction vs generalizing st with
  | nil => cases hv
  | cons v' vs ih =>
    rw [indexValues_cons]
    rcases List.mem_cons.mp hv with h | h
    · subst h
      exact indexValues_val_mono b vs (indexValue_val_self st b hne)
    · exact ih _ h

theorem indexValues_val_elim {st : PodState} {b w x : String} {vs : List String}
    (h : x ∈ (indexValues st b vs).valueToFiles w) : x ∈ st.valueToFiles w ∨ x = b := by
  induction vs generalizing st with
  | nil => exact Or.inl h
  | cons v vs ih =>
    rw [indexValues_cons] at h
    rcases ih h with h' | h'
    · exact indexValue_val_elim h'
    · exact Or.inr h'

/-! Lemmas about `indexField`. -/

theorem indexField_storedFiles (st : PodState) (b : String) (kv : String × List String) :
    (indexField st b kv).storedFiles = st.storedFiles := by
  unfold indexField
  split
  · rfl
  · rw [indexValues_storedFiles]

theorem indexField_skip (st : PodState) (b : String) {kv : String × List String}
    (h : trimSpace kv.1 = "") : indexField st b kv = st := by
  unfold indexField
  simp [h]

theorem indexField_key_mono {st : PodState} {k0 x : String} (b : String)
    (kv : String × List String) (h : x ∈ st.keyToFiles k0) :
    x ∈ (indexField st b kv).keyToFiles k0 := by
  unfold indexField
  split
  · exact h
  · rw [indexValues_keyToFiles]
    exact mem_updateMap_of_mem _ _ h

theorem indexField_key_self (st : PodState) (b : String) {kv : String × List String}
    (h : trimSpace kv.1 ≠ "") : b ∈ (indexField st b kv).keyToFiles (trimSpace kv.1) := by
  unfold indexField
  split
  · next heq => exact absurd heq h
  · rw [indexValues_keyToFiles]
    simp [updateMap_self]

theorem indexField_key_elim {st : PodState} {b k0 x : String} {kv : String × List String}
    (h : x ∈ (indexField st b kv).keyToFiles k0) : x ∈ st.keyToFiles k0 ∨ x = b := by
  unfold indexField at h
  split at h
  · exact Or.inl h
  · rw [indexValues_keyToFiles] at h
    exact mem_updateMap_elim h

theorem indexField_val_mono {st : PodState} {w x : String} (b : String)
    (kv : String × List String) (h : x ∈ st.valueToFiles w) :
    x ∈ (indexField st b kv).valueToFiles w := by
  unfold indexField
  split
  · exact h
  · exact indexValues_val_mono b kv.2 h

theorem indexField_val_est (st : PodState) (b : String) {kv : String × List String} {v : String}
    (hk : trimSpace kv.1 ≠ "") (hv : v ∈ kv.2) (hne : trimSpace v ≠ "") :
    b ∈ (indexField st b kv).valueToFiles (trimSpace v) := by
  unfold indexField
  split
  · next heq => exact absurd heq hk
  · exact indexValues_val_est _ b hv hne

theorem indexField_val_elim {st : PodState} {b w x : String} {kv : String × List String}
    (h : x ∈ (indexField st b kv).valueToFiles w) : x ∈ st.valueToFiles w ∨ x = b := by
  unfold indexField at h
  split at h
  · exact Or.inl h
  · rcases indexValues_val_elim h with h' | h'
    · exact Or.inl h'
    · exact Or.inr h'

/-! Lemmas about `indexFields`. -/

theorem indexFields_nil (st : PodState) (b : String) : indexFields st b [] = st := rfl

theorem indexFields_cons (st : PodState) (b : String) (kv : String × List String)
    (rest : List (String × List String)) :
    indexFields st b (kv :: rest) = indexFields (indexField st b kv) b rest := rfl

theorem indexFields_storedFiles (st : PodState) (b : String)
    (values : List (String × List String)) :
    (indexFields st b values).storedFiles = st.storedFiles := by
  induction values generalizing st with
  | nil => rfl
  | cons kv rest ih => rw [indexFields_cons, ih, indexField_storedFiles]

theorem indexFields_key_mono {st : PodState} {k0 x : String} (b : String)
    (values : List (String × List String)) (h : x ∈ st.keyToFiles k0) :
    x ∈ (indexFields st b values).keyToFiles k0 := by
  induction values generalizing st with
  | nil => exact h
  | cons kv rest ih => exact ih (indexField_key_mono b kv h)

theorem indexFields_val_mono {st : PodState} {w x : String} (b : String)
    (values : List (String × List String)) (h : x ∈ st.valueToFiles w) :
    x ∈ (indexFields st b values).valueToFiles w := by
  induction values generalizing st with
  | nil => exact h
  | cons kv rest ih => exact ih (indexField_val_mono b kv h)

theorem indexFields_key_est (st : PodState) (b : String) {k : String} {vs : List String}
    {values : List (String × List String)} (hkv : (k, vs) ∈ values)
    (hk : trimSpace k ≠ "") : b ∈ (indexFields st b values).keyToFiles (trimSpace k) := by
  induction values generalizing st with
  | nil => cases hkv
  | cons kv rest ih =>
    rw [indexFields_cons]
    rcases List.mem_cons.mp hkv with h | h
    · subst h
      exact indexFields_key_mono b rest (indexField_key_self st b hk)
    · exact ih _ h

theorem indexFields_val_est (st : PodState) (b : String) {k v : String} {vs : List String}
    {values : List (String × List String)} (hkv : (k, vs) ∈ values)
    (hk : trimSpace k ≠ "") (hv : v ∈ vs) (hne : trimSpace v ≠ "") :
    b ∈ (indexFields st b values).valueToFiles (trimSpace v) := by
  induction values generalizing st with
  | nil => cases hkv
  | cons kv rest ih =>
    rw [indexFields_cons]
    rcases List.mem_cons.mp hkv with h | h
    · subst h
      exact indexFields_val_mono b rest (indexField_val_est st b hk hv hne)
    · exact ih _ h

theorem indexFields_key_elim {st : PodState} {b k0 x : String}
    {values : List (String × List String)}
    (h : x ∈ (indexFields st b values).keyToFiles k0) : x ∈ st.keyToFiles k0 ∨ x = b := by
  induction values generalizing st with
  | nil => exact Or.inl h
  | cons kv rest ih =>
    rw [indexFields_cons] at h
    rcases ih h with h' | h'
    · exact indexField_key_elim h'
    · exact Or.inr h'

/-! Lemmas about `indexFile` and `applyTrace`. -/

theorem indexFile_storedFiles (st : PodState) (b : String)
    (values : List (String × List String)) :
    (indexFile st b values).storedFiles = st.storedFiles ++ [b] := by
  unfold indexFile
  rw [indexFields_storedFiles]

theorem indexFile_key_mono {st : PodState} {k0 x : String} (b : String)
    (values : List (String × List String)) (h : x ∈ st.keyToFiles k0) :
    x ∈ (indexFile st b values).keyToFiles k0 :=
  indexFields_key_mono b values h

theorem indexFile_val_mono {st : PodState} {w x : String} (b : String)
    (values : List (String × List String)) (h : x ∈ st.valueToFiles w) :
    x ∈ (indexFile st b values).valueToFiles w :=
  indexFields_val_mono b values h

theorem indexFile_key_est (st : PodState) (b : String) {k : String} {vs : List String}
    {values : List (String × List String)} (hkv : (k, vs) ∈ values)
    (hk : trimSpace k ≠ "") : b ∈ (indexFile st b values).keyToFiles (trimSpace k) :=
  indexFields_key_est _ b hkv hk

theorem indexFile_val_est (st : PodState) (b : String) {k v : String} {vs : List String}
    {values : List (String × List String)} (hkv : (k, vs) ∈ values)
    (hk : trimSpace k ≠ "") (hv : v ∈ vs) (hne : trimSpace v ≠ "") :
    b ∈ (indexFile st b values).valueToFiles (trimSpace v) :=
  indexFields_val_est _ b hkv hk hv hne

theorem indexFile_key_elim {st : PodState} {b k0 x : String}
    {values : List (String × List String)}
    (h : x ∈ (indexFile st b values).keyToFiles k0) : x ∈ st.keyToFiles k0 ∨ x = b := by
  unfold indexFile at h
  rcases indexFields_key_elim h with h' | h'
  · exact Or.inl h'
  · exact Or.inr h'

theorem applyTrace_nil (st : PodState) : applyTrace st [] = st := rfl

theorem applyTrace_cons (st : PodState) (e : String × List (String × List String))
    (tr : List (String × List (String × List String))) :
    applyTrace st (e :: tr) = applyTrace (indexFile st e.1 e.2) tr := rfl

theorem applyTrace_storedFiles (st : PodState)
    (tr : List (String × List (String × List String))) :
    (applyTrace st tr).storedFiles = st.storedFiles ++ tr.map Prod.fst := by
  induction tr generalizing st with
  | nil => simp [applyTrace_nil]
  | cons e tr ih =>
    rw [applyTrace_cons, ih, indexFile_storedFiles]
    simp

theorem applyTrace_key_mono {st : PodState} {k0 x : String}
    (tr : List (String × List (String × List String))) (h : x ∈ st.keyToFiles k0) :
    x ∈ (applyTrace st tr).keyToFiles k0 := by
  induction tr generalizing st with
  | nil => exact h
  | cons e tr ih => exact ih (indexFile_key_mono e.1 e.2 h)

theorem applyTrace_val_mono {st : PodState} {w x : String}
    (tr : List (String × List (String × List String))) (h : x ∈ st.valueToFiles w) :
    x ∈ (applyTrace st tr).valueToFiles w := by
  induction tr generalizing st with
  | nil => exact h
  | cons e tr ih => exact ih (indexFile_val_mono e.1 e.2 h)

theorem applyTrace_key_est (st : PodState) {id : String}
    {fields : List (String × List String)} {k : String} {vs : List String}
    {tr : List (String × List (String × List String))}
    (htr : (id, fields) ∈ tr) (hkv : (k, vs) ∈ fields) (hk : trimSpace k ≠ "") :
    id ∈ (applyTrace st tr).keyToFiles (trimSpace k) := by
  induction tr generalizing st with
  | nil => cases htr
  | cons e tr ih =>
    rw [applyTrace_cons]
    rcases List.mem_cons.mp htr with h | h
    · subst h
      exact applyTrace_key_mono tr (indexFile_key_est st id hkv hk)
    · exact ih _ h

theorem applyTrace_val_est (st : PodState) {id : String}
    {fields : List (String × List String)} {k v : String} {vs : List String}
    {tr : List (String × List (String × List String))}
    (htr : (id, fields) ∈ tr) (hkv : (k, vs) ∈ fields) (hk : trimSpace k ≠ "")
    (hv : v ∈ vs) (hne : trimSpace v ≠ "") :
    id ∈ (applyTrace st tr).valueToFiles (trimSpace v) := by
  induction tr generalizing st with
  | nil => cases htr
  | cons e tr ih =>
    rw [applyTrace_cons]
    rcases List.mem_cons.mp htr with h | h
    · subst h
      exact applyTrace_val_mono tr (indexFile_val_est st id hkv hk hv hne)
    · exact ih _ h

theorem applyTrace_key_elim {st : PodState} {k0 x : String}
    {tr : List (String × List (String × List String))}
    (h : x ∈ (applyTrace st tr).keyToFiles k0) :
    x ∈ st.keyToFiles k0 ∨ x ∈ tr.map Prod.fst := by
  induction tr generalizing st with
  | nil => exact Or.inl h
  | cons e tr ih =>
    rw [applyTrace_cons] at h
    rcases ih h with h' | h'
    · rcases indexFile_key_elim h' with h'' | h''
      · exact Or.inl h''
      · rw [List.map_cons, h'']
        exact Or.inr (List.mem_cons_self _ _)
    · rw [List.map_cons]
      exact Or.inr (List.mem_cons_of_mem _ h')

/-- Every identifier present in a key bucket of a state reachable from
`initState` is a recorded identifier: the key index never points
outside `storedFiles`. -/
theorem applyTrace_key_sub {k0 x : String}
    (tr : List (String × List (String × List String)))
    (h : x ∈ (applyTrace initState tr).keyToFiles k0) :
    x ∈ (applyTrace initState tr).storedFiles := by
  rcases applyTrace_key_elim h with h' | h'
  · exact absurd h' (List.not_mem_nil x)
  · rw [applyTrace_storedFiles]
    exact List.mem_append_right _ h'

/-! Membership characterisation of the query side. -/

theorem mem_foldl_append (fn : String) (f : String → List String) :
    ∀ (l : List String) (acc : List String),
      (fn ∈ l.foldl (fun a v => a ++ f v) acc ↔ fn ∈ acc ∨ ∃ v ∈ l, fn ∈ f v)
  | [], acc => by simp
  | v :: l, acc => by
    rw [List.foldl_cons, mem_foldl_append fn f l]
    simp only [List.mem_append, List.mem_cons]
    constructor
    · rintro ((h | h) | ⟨w, hw, hfn⟩)
      · exact Or.inl h
      · exact Or.inr ⟨v, Or.inl rfl, h⟩
      · exact Or.inr ⟨w, Or.inr hw, hfn⟩
    · rintro (h | ⟨w, (rfl | hw), hfn⟩)
      · exact Or.inl (Or.inl h)
      · exact Or.inl (Or.inr hfn)
      · exact Or.inr ⟨w, hw, hfn⟩

theorem mem_candSet {st : PodState} {qk fn : String} {qvs : List String} :
    fn ∈ candSet st qk qvs ↔
      fn ∈ st.keyToFiles qk ∧ (qvs ≠ [] → ∃ v ∈ qvs, fn ∈ st.valueToFiles v) := by
  unfold candSet
  split
  · next h => simp [h]
  · next h =>
    rw [mem_foldl_append]
    simp only [List.not_mem_nil, false_or, List.mem_filter, decide_eq_true_eq]
    constructor
    · rintro ⟨v, hv, hfn, htmp⟩
      exact ⟨htmp, fun _ => ⟨v, hv, hfn⟩⟩
    · rintro ⟨htmp, hex⟩
      rcases hex h with ⟨v, hv, hfn⟩
      exact ⟨v, hv, hfn, htmp⟩

theorem mem_interSet {c tmp : List String} {fn : String} :
    fn ∈ interSet c tmp ↔ fn ∈ c ∧ fn ∈ tmp := by
  simp [interSet, List.mem_filter]

theorem mem_candFold {st : PodState} {fn : String} :
    ∀ (rest : List (String × List String)) (cand : List String),
      (fn ∈ candFold st cand rest ↔ fn ∈ cand ∧ ∀ p ∈ rest, fn ∈ candSet st p.1 p.2)
  | [], cand => by simp [candFold]
  | q :: rest, cand => by
    unfold candFold
    split
    · next hemp =>
      simp only [List.not_mem_nil, false_iff, List.forall_mem_cons]
      rintro ⟨hc, hq, _⟩
      have : fn ∈ interSet cand (candSet st q.1 q.2) := mem_interSet.mpr ⟨hc, hq⟩
      rw [hemp] at this
      exact List.not_mem_nil fn this
    · rw [mem_candFold rest, mem_interSet, List.forall_mem_cons]
      tauto

theorem mem_filesMatchingQuery {st : PodState} {fn : String}
    {q : List (String × List String)} (hq : q ≠ []) :
    fn ∈ filesMatchingQuery st q ↔
      fn ∈ st.storedFiles ∧ ∀ p ∈ q, fn ∈ candSet st p.1 p.2 := by
  cases q with
  | nil => exact absurd rfl hq
  | cons p rest =>
    unfold filesMatchingQuery
    rw [List.mem_filter, decide_eq_true_eq, mem_candFold, List.forall_mem_cons]

theorem filesMatchingQuery_sublist (st : PodState) (q : List (String × List String)) :
    (filesMatchingQuery st q).Sublist st.storedFiles := by
  cases q with
  | nil => exact List.Sublist.refl _
  | cons p rest => exact List.filter_sublist _

/-! Injectivity of the identifier rendering `form_<decimal>`. -/

/-- Numeric value of a decimal digit character. -/
def charVal (c : Char) : Nat := c.toNat - 48

/-- Value of a little-endian decimal digit list. -/
def decodeDigits : List Nat → Nat
  | [] => 0
  | d :: ds => d + 10 * decodeDigits ds

/-- Value of the decimal string rendering, inverse of `natStr`. -/
def decodeStr (s : String) : Nat := decodeDigits (s.data.reverse.map charVal)

theorem decodeDigits_toDigitsAux :
    ∀ fuel n, n ≤ fuel → decodeDigits (toDigitsAux fuel n) = n
  | 0, n, h => by
    have : n = 0 := Nat.le_zero.mp h
    subst this
    rfl
  | fuel + 1, n, h => by
    unfold toDigitsAux
    split
    · next h0 => simp [decodeDigits, h0]
    · next h0 =>
      have hlt : n / 10 ≤ fuel := by
        have : n / 10 < n := Nat.div_lt_self (Nat.pos_of_ne_zero h0) (by omega)
        omega
      rw [decodeDigits, decodeDigits_toDigitsAux fuel (n / 10) hlt]
      omega

theorem toDigitsAux_lt : ∀ fuel n d, d ∈ toDigitsAux fuel n → d < 10
  | 0, _, _, h => absurd h (List.not_mem_nil _)
  | fuel + 1, n, d, h => by
    unfold toDigitsAux at h
    split at h
    · exact absurd h (List.not_mem_nil _)
    · rcases List.mem_cons.mp h with h' | h'
      · subst h'
        exact Nat.mod_lt _ (by omega)
      · exact toDigitsAux_lt fuel (n / 10) d h'

theorem charVal_digitChar {d : Nat} (h : d < 10) : charVal (digitChar d) = d := by
  interval_cases d <;> decide

theorem decodeStr_natStr (n : Nat) : decodeStr (natStr n) = n := by
  by_cases h : n = 0
  · subst h
    decide
  · unfold natStr
    rw [if_neg h]
    unfold decodeStr
    show decodeDigits (((((toDigitsRev n).map digitChar).reverse).reverse).map charVal) = n
    rw [List.reverse_reverse, List.map_map]
    have hmap : (toDigitsRev n).map (charVal ∘ digitChar) = toDigitsRev n := by
      have := List.map_congr_left
        (f := charVal ∘ digitChar) (g := id) (l := toDigitsRev n)
        (fun d hd => charVal_digitChar (toDigitsAux_lt n n d hd))
      rw [this, List.map_id]
    rw [hmap]
    exact decodeDigits_toDigitsAux n n (Nat.le_refl n)

theorem natStr_inj {m n : Nat} (h : natStr m = natStr n) : m = n := by
  have := congrArg decodeStr h
  rwa [decodeStr_natStr, decodeStr_natStr] at this

theorem writeFormFile_inj {ts1 ts2 : Nat} (h : writeFormFile ts1 = writeFormFile ts2) :
    ts1 = ts2 := by
  apply natStr_inj
  unfold writeFormFile at h
  have hd := congrArg String.data h
  rw [String.data_append, String.data_append] at hd
  exact String.ext (List.append_cancel_left hd)

/-- Order-independence of the query loop: permuting the queried fields
does not change the returned list, since the result is the projection
of the intersected candidate sets through `storedFiles`. -/
theorem filesMatchingQuery_perm (st : PodState) {q q' : List (String × List String)}
    (h : q.Perm q') : filesMatchingQuery st q = filesMatchingQuery st q' := by
  cases q with
  | nil =>
    have : q' = [] := h.symm.eq_nil
    rw [this]
  | cons a l =>
    cases q' with
    | nil => exact absurd h.eq_nil (by simp)
    | cons b l' =>
      show List.filter _ _ = List.filter _ _
      apply List.filter_congr
      intro fn _
      simp only [decide_eq_decide]
      have h1 : fn ∈ candFold st (candSet st a.1 a.2) l ↔
          ∀ p ∈ a :: l, fn ∈ candSet st p.1 p.2 := by
        rw [mem_candFold, List.forall_mem_cons]
      have h2 : fn ∈ candFold st (candSet st b.1 b.2) l' ↔
          ∀ p ∈ b :: l', fn ∈ candSet st p.1 p.2 := by
        rw [mem_candFold, List.forall_mem_cons]
      rw [h1, h2]
      exact ⟨fun H p hp => H p (h.mem_iff.mpr hp), fun H p hp => H p (h.mem_iff.mp hp)⟩

/-! Theorems settling the claims. -/

/-- C1, counterexample: two `append` calls that observe the same clock
instant are assigned the *same* identifier — `writeFormFile` derives the
base name from the timestamp alone, with no tie-breaking counter — and
the store then records the duplicated identifier twice. -/
theorem C1_same_instant_identifier_collision :
    (appendForm initState 7 [("a", ["b"])]).2 =
      (appendForm (appendForm initState 7 [("a", ["b"])]).1 7 [("c", ["d"])]).2 ∧
    ¬ ((appendForm (appendForm initState 7 [("a", ["b"])]).1 7
        [("c", ["d"])]).1.storedFiles).Nodup := by
  decide

/-- C1, amended: identifiers assigned by two `append` calls are distinct
whenever the observed clock instants are distinct — the identifier
`form_<UnixNano>` is injective in the timestamp, but there is no
tie-breaking counter, so same-instant calls collide. -/
theorem C1_identifiers_distinct_for_distinct_instants
    (st1 st2 : PodState) (ts1 ts2 : Nat)
    (f1 f2 : List (String × List String)) (h : ts1 ≠ ts2) :
    (appendForm st1 ts1 f1).2 ≠ (appendForm st2 ts2 f2).2 :=
  fun heq => h (writeFormFile_inj heq)

/-- C1, witness for the amended theorem at instants 1 and 2. -/
theorem C1_identifiers_distinct_witness :
    (1 : Nat) ≠ 2 ∧ (appendForm initState 1 []).2 ≠ (appendForm initState 2 []).2 :=
  ⟨by decide,
   C1_identifiers_distinct_for_distinct_instants initState initState 1 2 [] [] (by decide)⟩

/-- C2: for every queried field with a non-empty accepted value set,
`match` keeps exactly the recorded identifiers that possess the field
per the key index and possess at least one accepted value per the
*global* value index; consequently an identifier whose value was
submitted under a different field than the queried one still matches,
provided it also has the queried field. -/
theorem C2_match_uses_global_value_index (st : PodState)
    (q : List (String × List String)) (hq : q ≠ []) :
    (∀ fn, fn ∈ filesMatchingQuery st q ↔
        fn ∈ st.storedFiles ∧ ∀ p ∈ q, fn ∈ st.keyToFiles p.1 ∧
          (p.2 ≠ [] → ∃ v ∈ p.2, fn ∈ st.valueToFiles v)) ∧
    (∀ fn k v, fn ∈ st.storedFiles → fn ∈ st.keyToFiles k → fn ∈ st.valueToFiles v →
        fn ∈ filesMatchingQuery st [(k, [v])]) := by
  constructor
  · intro fn
    rw [mem_filesMatchingQuery hq]
    constructor
    · rintro ⟨hs, hall⟩
      exact ⟨hs, fun p hp => mem_candSet.mp (hall p hp)⟩
    · rintro ⟨hs, hall⟩
      exact ⟨hs, fun p hp => mem_candSet.mpr (hall p hp)⟩
  · intro fn k v hs hk hv
    rw [mem_filesMatchingQuery (List.cons_ne_nil _ _)]
    refine ⟨hs, fun p hp => ?_⟩
    rw [List.mem_singleton] at hp
    subst hp
    exact mem_candSet.mpr ⟨hk, fun _ => ⟨v, List.mem_singleton_self v, hv⟩⟩

/-- C2, witness: identifier `form_1` was submitted with value `v` under
field `k2` only, yet it matches the query `k = v` because it also has
field `k` and the value lookup is global. -/
theorem C2_match_uses_global_value_index_witness :
    ([(("k" : String), (["v"] : List String))] ≠ []) ∧
    "form_1" ∈ filesMatchingQuery
      (applyTrace initState [("form_1", [("k", ["a"]), ("k2", ["v"])])]) [("k", ["v"])] :=
  ⟨by decide,
   (C2_match_uses_global_value_index
      (applyTrace initState [("form_1", [("k", ["a"]), ("k2", ["v"])])])
      [("k", ["v"])] (by decide)).2
     "form_1" "k" "v" (by decide) (by decide) (by decide)⟩

/-- C3, counterexample to the claim as stated: the accepted field set
`{"k": [" v "]}` is appended, and `match` on the very pair taken from
it returns the empty list, because the index stores the trimmed value
`"v"` while the query looks up the untrimmed `" v "`. -/
theorem C3_round_trip_counterexample :
    (("k", [" v "]) ∈ [(("k" : String), ([" v "] : List String))]) ∧
    (appendForm initState 1 [("k", [" v "])]).2 ∉
      filesMatchingQuery (appendForm initState 1 [("k", [" v "])]).1 [("k", [" v "])] := by
  decide

/-- C3, amended: for every accepted field set and every pair `(k, v)`
taken from it whose name and value are unchanged by trimming and
non-empty, `match` on `{k: [v]}` after `append` includes the assigned
identifier. -/
theorem C3_round_trip_trimmed (st : PodState) (ts : Nat)
    (fields : List (String × List String)) (k v : String) (vs : List String)
    (hkv : (k, vs) ∈ fields) (hv : v ∈ vs)
    (hk1 : trimSpace k = k) (hk2 : k ≠ "") (hv1 : trimSpace v = v) (hv2 : v ≠ "") :
    (appendForm st ts fields).2 ∈
      filesMatchingQuery (appendForm st ts fields).1 [(k, [v])] := by
  have hk : trimSpace k ≠ "" := by rw [hk1]; exact hk2
  have hvne : trimSpace v ≠ "" := by rw [hv1]; exact hv2
  rw [mem_filesMatchingQuery (List.cons_ne_nil _ _)]
  constructor
  · show writeFormFile ts ∈ (indexFile st (writeFormFile ts) fields).storedFiles
    rw [indexFile_storedFiles]
    simp
  · intro p hp
    rw [List.mem_singleton] at hp
    subst hp
    rw [mem_candSet]
    constructor
    · have := indexFile_key_est st (writeFormFile ts) hkv hk
      rwa [hk1] at this
    · intro _
      refine ⟨v, List.mem_singleton_self v, ?_⟩
      have := indexFile_val_est st (writeFormFile ts) hkv hk hv hvne
      rwa [hv1] at this

/-- C3, witness for the amended round trip at a concrete submission. -/
theorem C3_round_trip_trimmed_witness :
    ((("color" : String), (["red"] : List String)) ∈ [("color", ["red"]), ("size", ["M"])] ∧
      ("red" : String) ∈ ["red"] ∧ trimSpace "color" = "color" ∧ ("color" : String) ≠ "" ∧
      trimSpace "red" = "red" ∧ ("red" : String) ≠ "") ∧
    (appendForm initState 5 [("color", ["red"]), ("size", ["M"])]).2 ∈
      filesMatchingQuery
        (appendForm initState 5 [("color", ["red"]), ("size", ["M"])]).1
        [("color", ["red"])] :=
  ⟨⟨by decide, by decide, by decide, by decide, by decide, by decide⟩,
   C3_round_trip_trimmed initState 5 [("color", ["red"]), ("size", ["M"])]
     "color" "red" ["red"] (by decide) (by decide) (by decide) (by decide)
     (by decide) (by decide)⟩

/-- C4: `match` on the empty query returns exactly `list()`, the full
insertion-ordered identifier sequence (full-scan semantics). -/
theorem C4_empty_query_returns_all (st : PodState) :
    filesMatchingQuery st [] = listIds st := rfl

/-- C5: for a non-empty query over a state whose key index only holds
recorded identifiers, the returned identifiers are exactly those lying
in every queried field's candidate set; if some candidate set is empty
the result is empty; and the result does not depend on the order in
which the query's fields are processed. -/
theorem C5_intersection_of_candidate_sets (st : PodState)
    (hinv : ∀ k fn, fn ∈ st.keyToFiles k → fn ∈ listIds st)
    (q : List (String × List String)) (hq : q ≠ []) :
    (∀ fn, fn ∈ filesMatchingQuery st q ↔ ∀ p ∈ q, fn ∈ candSet st p.1 p.2) ∧
    ((∃ p ∈ q, candSet st p.1 p.2 = []) → filesMatchingQuery st q = []) ∧
    (∀ q', q.Perm q' → filesMatchingQuery st q = filesMatchingQuery st q') := by
  refine ⟨?_, ?_, fun q' h => filesMatchingQuery_perm st h⟩
  · intro fn
    rw [mem_filesMatchingQuery hq]
    constructor
    · exact fun h => h.2
    · intro h
      refine ⟨?_, h⟩
      rcases List.exists_mem_of_ne_nil q hq with ⟨p0, hp0⟩
      exact hinv p0.1 fn (mem_candSet.mp (h p0 hp0)).1
  · rintro ⟨p, hp, hemp⟩
    rw [List.eq_nil_iff_forall_not_mem]
    intro fn hfn
    rw [mem_filesMatchingQuery hq] at hfn
    have := hfn.2 p hp
    rw [hemp] at this
    exact List.not_mem_nil fn this

/-- C5, witness: on the spec's two-submission scenario, swapping the
two queried fields leaves the result unchanged. -/
theorem C5_intersection_witness :
    (([("color", ["red"]), ("size", ["M"])] : List (String × List String)) ≠ []) ∧
    filesMatchingQuery
        (applyTrace initState
          [("form_1", [("color", ["red"]), ("size", ["M"])]),
           ("form_2", [("color", ["blue"]), ("size", ["M"])])])
        [("color", ["red"]), ("size", ["M"])] =
      filesMatchingQuery
        (applyTrace initState
          [("form_1", [("color", ["red"]), ("size", ["M"])]),
           ("form_2", [("color", ["blue"]), ("size", ["M"])])])
        [("size", ["M"]), ("color", ["red"])] :=
  ⟨by decide,
   (C5_intersection_of_candidate_sets
      (applyTrace initState
        [("form_1", [("color", ["red"]), ("size", ["M"])]),
         ("form_2", [("color", ["blue"]), ("size", ["M"])])])
      (fun k fn h => applyTrace_key_sub _ h)
      [("color", ["red"]), ("size", ["M"])] (by decide)).2.2
     [("size", ["M"]), ("color", ["red"])]
     (List.Perm.swap ("size", ["M"]) ("color", ["red"]) [])⟩

/-- C6: the result of `match` is always a subsequence of `list()`, the
Record Store's insertion-ordered identifier sequence, so results are
emitted oldest first. -/
theorem C6_results_follow_insertion_order (st : PodState)
    (q : List (String × List String)) :
    (filesMatchingQuery st q).Sublist (listIds st) :=
  filesMatchingQuery_sublist st q

/-- C7: a field name that trims to empty contributes nothing (the whole
field is skipped), a value that trims to empty contributes nothing, and
indexing `{" k ": [" v "]}` produces the very same state as indexing
`{"k": ["v"]}` — hence the two are indistinguishable under the query
`{"k": ["v"]}`. -/
theorem C7_whitespace_trimming (st : PodState) (b k v : String) (vs : List String)
    (hk : trimSpace k = "") (hv : trimSpace v = "") :
    indexField st b (k, vs) = st ∧ indexValue st b v = st ∧
    indexFile st b [(" k ", [" v "])] = indexFile st b [("k", ["v"])] ∧
    filesMatchingQuery (indexFile st b [(" k ", [" v "])]) [("k", ["v"])] =
      filesMatchingQuery (indexFile st b [("k", ["v"])]) [("k", ["v"])] := by
  refine ⟨indexField_skip st b hk, ?_, rfl, rfl⟩
  unfold indexValue
  rw [if_pos hv]

/-- C7, witness at whitespace-only name and value. -/
theorem C7_whitespace_trimming_witness :
    trimSpace " \t " = "" ∧ trimSpace " " = "" ∧
    (indexField initState "form_1" (" \t ", ["x"]) = initState ∧
      indexValue initState "form_1" " " = initState ∧
      indexFile initState "form_1" [(" k ", [" v "])] =
        indexFile initState "form_1" [("k", ["v"])] ∧
      filesMatchingQuery (indexFile initState "form_1" [(" k ", [" v "])]) [("k", ["v"])] =
        filesMatchingQuery (indexFile initState "form_1" [("k", ["v"])]) [("k", ["v"])]) :=
  ⟨by decide, by decide,
   C7_whitespace_trimming initState "form_1" " \t " " " ["x"] (by decide) (by decide)⟩

/-- C8: a query containing a field never seen by the key index — or a
field all of whose requested values are unknown to the value index —
yields the empty result (an empty candidate set intersected away), not
an error. -/
theorem C8_unknown_field_or_value_empty (st : PodState)
    (q : List (String × List String)) (k : String) (vs : List String)
    (hq : (k, vs) ∈ q)
    (h : st.keyToFiles k = [] ∨ (vs ≠ [] ∧ ∀ v ∈ vs, st.valueToFiles v = [])) :
    filesMatchingQuery st q = [] := by
  have hqne : q ≠ [] := List.ne_nil_of_mem hq
  rw [List.eq_nil_iff_forall_not_mem]
  intro fn hfn
  rw [mem_filesMatchingQuery hqne] at hfn
  have hc := mem_candSet.mp (hfn.2 (k, vs) hq)
  rcases h with h | ⟨hvs, hall⟩
  · rw [h] at hc
    exact List.not_mem_nil fn hc.1
  · rcases hc.2 hvs with ⟨v, hv, hfn'⟩
    rw [hall v hv] at hfn'
    exact List.not_mem_nil fn hfn'

/-- C8, witness: `match({"nonexistent": ["x"]})` on a store holding one
submission returns the empty list. -/
theorem C8_unknown_field_witness :
    ((("nonexistent" : String), (["x"] : List String)) ∈ [("nonexistent", ["x"])]) ∧
    filesMatchingQuery (applyTrace initState [("form_1", [("color", ["red"])])])
      [("nonexistent", ["x"])] = [] :=
  ⟨by decide,
   C8_unknown_field_or_value_empty
     (applyTrace initState [("form_1", [("color", ["red"])])])
     [("nonexistent", ["x"])] "nonexistent" ["x"] (by decide) (Or.inl (by decide))⟩

/-- C9, counterexample to the claim as stated: the recorded submission
`form_1` has the field pair `k = " v "`, yet its identifier is not in
`valueIndex[" v "]` — the index stores identifiers under *trimmed*
values only. -/
theorem C9_invariant_counterexample :
    (("form_1", [("k", [" v "])]) ∈
      ([("form_1", [("k", [" v "])])] : List (String × List (String × List String)))) ∧
    "form_1" ∈ (applyTrace initState [("form_1", [("k", [" v "])])]).storedFiles ∧
    "form_1" ∉ (applyTrace initState [("form_1", [("k", [" v "])])]).valueToFiles " v " := by
  decide

/-- C9, amended invariant: after any sequence of updates from the empty
state, for every recorded submission and every field pair `k = v` of it
whose trimmed name is non-empty, the identifier is in
`keyIndex[trim k]`, and in `valueIndex[trim v]` for every value of the
field whose trimmed form is non-empty. -/
theorem C9_index_invariant_trimmed
    (tr : List (String × List (String × List String))) (fid : String)
    (fields : List (String × List String)) (k : String) (vs : List String)
    (htr : (fid, fields) ∈ tr) (hkv : (k, vs) ∈ fields) (hk : trimSpace k ≠ "") :
    fid ∈ (applyTrace initState tr).keyToFiles (trimSpace k) ∧
    ∀ v ∈ vs, trimSpace v ≠ "" →
      fid ∈ (applyTrace initState tr).valueToFiles (trimSpace v) :=
  ⟨applyTrace_key_est _ htr hkv hk,
   fun _ hv hne => applyTrace_val_est _ htr hkv hk hv hne⟩

/-- C9, witness for the amended invariant on a concrete history. -/
theorem C9_index_invariant_witness :
    ((("form_1" : String), [(("k" : String), (["a"] : List String))]) ∈
        [("form_1", [("k", ["a"])]), ("form_2", [("k2", ["b"])])] ∧
      (("k" : String), (["a"] : List String)) ∈ [("k", ["a"])] ∧
      trimSpace "k" ≠ "") ∧
    ("form_1" ∈ (applyTrace initState
        [("form_1", [("k", ["a"])]), ("form_2", [("k2", ["b"])])]).keyToFiles
        (trimSpace "k") ∧
      ∀ v ∈ (["a"] : List String), trimSpace v ≠ "" →
        "form_1" ∈ (applyTrace initState
          [("form_1", [("k", ["a"])]), ("form_2", [("k2", ["b"])])]).valueToFiles
          (trimSpace v)) :=
  ⟨⟨by decide, by decide, by decide⟩,
   C9_index_invariant_trimmed
     [("form_1", [("k", ["a"])]), ("form_2", [("k2", ["b"])])]
     "form_1" [("k", ["a"])] "k" ["a"] (by decide) (by decide) (by decide)⟩

/-- C10: on any index state built from updates with pairwise distinct
identifiers, `match` returns each identifier at most once, even when a
submission contributed the same value several times so that the index
buckets hold duplicate entries. -/
theorem C10_results_have_no_duplicates
    (tr : List (String × List (String × List String)))
    (hids : (tr.map Prod.fst).Nodup) (q : List (String × List String)) :
    (filesMatchingQuery (applyTrace initState tr) q).Nodup := by
  have hstored : (applyTrace initState tr).storedFiles.Nodup := by
    rw [applyTrace_storedFiles]
    simpa using hids
  exact (filesMatchingQuery_sublist _ q).nodup hstored

/-- C10, witness: a submission contributing value `x` three times still
appears only once in the result. -/
theorem C10_no_duplicates_witness :
    (([("form_1", [("a", ["x", "x"]), ("b", ["x"])]),
        ("form_2", [("a", ["x"])])] :
        List (String × List (String × List String))).map Prod.fst).Nodup ∧
    (filesMatchingQuery
      (applyTrace initState
        [("form_1", [("a", ["x", "x"]), ("b", ["x"])]), ("form_2", [("a", ["x"])])])
      [("a", ["x"])]).Nodup :=
  ⟨by decide,
   C10_results_have_no_duplicates
     [("form_1", [("a", ["x", "x"]), ("b", ["x"])]), ("form_2", [("a", ["x"])])]
     (by decide) [("a", ["x"])]⟩

end POD
